import Mathlib

/-!
Verification development for the recipe-to-cart ingredient resolution
pipeline of the Picnic-kobo repository.

The data shapes are embedded from
src/picnic-cart/frontend/src/types/index.ts (ParsedIngredient,
ProductMatchOption, ProductMatch), the review-step logic from the
RecipesPage component (toggleMatch, selectedMatches, the Step state),
and the bulk cart addition from the bulk_add_to_cart tool of the MCP
server. Confidence scores are embedded as rationals; the backend stores
them as ordinary decimal numbers (0.7, 0.4, 0.85), which rationals
represent exactly, so no behaviour is lost.

The backend handlers of the /recipes endpoints (ingredient extractor,
catalog matcher, match classifier, resolution orchestrator) are not part
of the repository sources available here; definitions for those carry a
doc comment starting with the words Modelled from the spec.
-/

namespace PicnicKobo

/-- One parsed ingredient line, embedded from the ParsedIngredient
interface of the frontend types. Quantities are rationals (the wire
format uses decimal numbers). -/
structure ParsedIngredient where
  original_text : String
  quantity : Option ℚ
  unit : Option String
  ingredient : String
  normalized : String
  search_term : String
deriving Repr, DecidableEq

/-- One catalog product candidate for an ingredient, embedded from the
ProductMatchOption interface of the frontend types. -/
structure ProductMatchOption where
  id : String
  name : String
  price : Option ℤ
  image_url : Option String
  unit_quantity : Option String
  confidence : ℚ
deriving Repr, DecidableEq

/-- The four match tiers of the ProductMatch status field. -/
inductive MatchStatus where
  | Matched
  | Partial
  | Uncertain
  | NotFound
deriving Repr, DecidableEq

/-- The classified outcome for one ingredient, embedded from the
ProductMatch interface of the frontend types. -/
structure ProductMatch where
  ingredient : ParsedIngredient
  «matches» : List ProductMatchOption
  selected : Option ProductMatchOption
  status : MatchStatus
  best_confidence : ℚ
  needs_review : Bool
  suggested_quantity : ℕ
deriving Repr, DecidableEq

/-- Confidence at or above which a match is auto-selected without
review (the 0.7 tier boundary of the spec). -/
def autoSelectThreshold : ℚ := 7 / 10

/-- Confidence at or above which a match is only partial (the 0.4 tier
boundary of the spec); below it the match is uncertain. -/
def reviewThreshold : ℚ := 4 / 10

/-- Modelled from the spec: the backend that derives a suggested cart
quantity from a parsed descriptor is not in the available sources. Per
the spec, the suggested quantity is the parsed quantity when it is an
integer and defaults to 1 when the quantity is absent or non-integer. -/
def suggestedQuantity (d : ParsedIngredient) : ℕ :=
  match d.quantity with
  | none => 1
  | some q => if q.den = 1 then q.num.toNat else 1

/-- Modelled from the spec: the backend match classifier is not in the
available sources. Per the spec, classify applies the fixed confidence
tier policy to a descriptor and its ranked candidate list: empty list
means not found and nothing selected; a best confidence at or above 0.7
is matched with no review; at or above 0.4 is partial with review;
below 0.4 is uncertain with review; in the three non-empty tiers the
first candidate is selected. -/
def classify (d : ParsedIngredient) (candidates : List ProductMatchOption) :
    ProductMatch :=
  match candidates with
  | [] =>
    { ingredient := d, «matches» := [], selected := none,
      status := MatchStatus.NotFound, best_confidence := 0,
      needs_review := true, suggested_quantity := suggestedQuantity d }
  | best :: rest =>
    if autoSelectThreshold ≤ best.confidence then
      { ingredient := d, «matches» := best :: rest, selected := some best,
        status := MatchStatus.Matched, best_confidence := best.confidence,
        needs_review := false, suggested_quantity := suggestedQuantity d }
    else if reviewThreshold ≤ best.confidence then
      { ingredient := d, «matches» := best :: rest, selected := some best,
        status := MatchStatus.Partial, best_confidence := best.confidence,
        needs_review := true, suggested_quantity := suggestedQuantity d }
    else
      { ingredient := d, «matches» := best :: rest, selected := some best,
        status := MatchStatus.Uncertain, best_confidence := best.confidence,
        needs_review := true, suggested_quantity := suggestedQuantity d }

/-- A concrete descriptor used by the witness theorems. -/
def sampleIngredient : ParsedIngredient :=
  { original_text := "2 eieren", quantity := some 2, unit := none,
    ingredient := "eieren", normalized := "ei", search_term := "ei" }

/-- A concrete high-confidence candidate used by the witness theorems. -/
def sampleOption : ProductMatchOption :=
  { id := "p1", name := "Eieren", price := some 299, image_url := none,
    unit_quantity := some "10 stuks", confidence := 17 / 20 }

/-- C1: classify assigns the match record exactly by the fixed
confidence tiers: an empty candidate list yields status not_found with
review needed and nothing selected; a first candidate with confidence
at least 0.7 yields matched, no review, first candidate selected;
best confidence in the interval from 0.4 up to but excluding 0.7
yields partial with review and the first candidate selected; best
confidence below 0.4 yields uncertain with review and the first
candidate selected. -/
theorem classify_confidence_tiers (d : ParsedIngredient)
    (cs : List ProductMatchOption) :
    (cs = [] →
      (classify d cs).status = MatchStatus.NotFound ∧
      (classify d cs).needs_review = true ∧
      (classify d cs).selected = none) ∧
    (∀ c rest, cs = c :: rest →
      ((7 / 10 : ℚ) ≤ c.confidence →
        (classify d cs).status = MatchStatus.Matched ∧
        (classify d cs).needs_review = false ∧
        (classify d cs).selected = some c) ∧
      ((4 / 10 : ℚ) ≤ c.confidence ∧ c.confidence < 7 / 10 →
        (classify d cs).status = MatchStatus.Partial ∧
        (classify d cs).needs_review = true ∧
        (classify d cs).selected = some c) ∧
      (c.confidence < (4 / 10 : ℚ) →
        (classify d cs).status = MatchStatus.Uncertain ∧
        (classify d cs).needs_review = true ∧
        (classify d cs).selected = some c)) := by
  constructor
  · intro h
    subst h
    exact ⟨rfl, rfl, rfl⟩
  · intro c rest h
    subst h
    refine ⟨?_, ?_, ?_⟩
    · intro hc
      simp only [classify, autoSelectThreshold, if_pos hc]
      exact ⟨trivial, trivial, trivial⟩
    · rintro ⟨h4, h7⟩
      have hn : ¬ (autoSelectThreshold ≤ c.confidence) := by
        simp only [autoSelectThreshold]; linarith
      simp only [classify, if_neg hn, reviewThreshold, if_pos h4]
      exact ⟨trivial, trivial, trivial⟩
    · intro hc
      have hn : ¬ (autoSelectThreshold ≤ c.confidence) := by
        simp only [autoSelectThreshold]; linarith
      have hn2 : ¬ (reviewThreshold ≤ c.confidence) := by
        simp only [reviewThreshold]; linarith
      simp only [classify, if_neg hn, if_neg hn2]
      exact ⟨trivial, trivial, trivial⟩

/-- Witness for C1: a candidate with confidence 0.85 is classified
matched, without review, and auto-selected. -/
theorem classify_confidence_tiers_witness :
    (classify sampleIngredient [sampleOption]).status = MatchStatus.Matched ∧
    (classify sampleIngredient [sampleOption]).needs_review = false ∧
    (classify sampleIngredient [sampleOption]).selected = some sampleOption :=
  ((classify_confidence_tiers sampleIngredient [sampleOption]).2
    sampleOption [] rfl).1 (by norm_num [sampleOption])

/-- C9: classify is a pure, deterministic function: two invocations on
equal inputs agree on every field of the produced match record. -/
theorem classify_deterministic (d₁ d₂ : ParsedIngredient)
    (cs₁ cs₂ : List ProductMatchOption) (hd : d₁ = d₂) (hc : cs₁ = cs₂) :
    (classify d₁ cs₁).status = (classify d₂ cs₂).status ∧
    (classify d₁ cs₁).best_confidence = (classify d₂ cs₂).best_confidence ∧
    (classify d₁ cs₁).needs_review = (classify d₂ cs₂).needs_review ∧
    (classify d₁ cs₁).«matches» = (classify d₂ cs₂).matches ∧
    (classify d₁ cs₁).selected = (classify d₂ cs₂).selected := by
  subst hd
  subst hc
  exact ⟨rfl, rfl, rfl, rfl, rfl⟩

/-- Witness for C9: determinism instantiated at a concrete input. -/
theorem classify_deterministic_witness :
    (classify sampleIngredient [sampleOption]).status =
      (classify sampleIngredient [sampleOption]).status ∧
    (classify sampleIngredient [sampleOption]).best_confidence =
      (classify sampleIngredient [sampleOption]).best_confidence ∧
    (classify sampleIngredient [sampleOption]).needs_review =
      (classify sampleIngredient [sampleOption]).needs_review ∧
    (classify sampleIngredient [sampleOption]).«matches» =
      (classify sampleIngredient [sampleOption]).matches ∧
    (classify sampleIngredient [sampleOption]).selected =
      (classify sampleIngredient [sampleOption]).selected :=
  classify_deterministic sampleIngredient sampleIngredient
    [sampleOption] [sampleOption] rfl rfl


/-- One item of the bulk_add_to_cart request, embedded from the
BulkAddToCartSchema of the MCP server (part_015). -/
structure BulkItem where
  productId : String
  count : ℕ
deriving Repr, DecidableEq

/-- One entry of the results list built by the bulk_add_to_cart tool:
the item echoed back with success true, or success false together with
the caught error message. -/
structure BulkItemResult where
  productId : String
  count : ℕ
  success : Bool
  error : Option String
deriving Repr, DecidableEq

/-- The external cart collaborator as seen by bulk_add_to_cart: adding
one item either succeeds or throws an error message. -/
abbrev CartAdd : Type := BulkItem → Except String Unit

/-- The body of the bulk_add_to_cart loop for a single item: attempt
the add; on success record a success entry, on an exception record a
failure entry carrying the message (the try/catch of the source). -/
def bulkAddStep (add : CartAdd) (item : BulkItem) : BulkItemResult :=
  match add item with
  | Except.ok _ =>
    { productId := item.productId, count := item.count,
      success := true, error := none }
  | Except.error e =>
    { productId := item.productId, count := item.count,
      success := false, error := some e }

/-- The results list of the bulk_add_to_cart tool of the MCP server:
the for loop walks the items in order, catches the exception of each
add, and always continues with the next item. -/
def bulk_add_to_cart (add : CartAdd) : List BulkItem → List BulkItemResult
  | [] => []
  | item :: rest => bulkAddStep add item :: bulk_add_to_cart add rest

/-- The added field of the bulk_add_to_cart response:
results.filter(r => r.success).length in the source. -/
def addedCount (rs : List BulkItemResult) : ℕ :=
  (rs.filter (fun r => r.success)).length

/-- The failed field of the bulk_add_to_cart response:
results.filter(r => !r.success).length in the source. -/
def failedCount (rs : List BulkItemResult) : ℕ :=
  (rs.filter (fun r => !r.success)).length

/-- Whether the collaborator accepts a given item. -/
def addSucceeds (add : CartAdd) (item : BulkItem) : Bool :=
  match add item with
  | Except.ok _ => true
  | Except.error _ => false

theorem bulk_add_to_cart_eq_map (add : CartAdd) (items : List BulkItem) :
    bulk_add_to_cart add items = items.map (bulkAddStep add) := by
  induction items with
  | nil => rfl
  | cons item rest ih => simp [bulk_add_to_cart, ih]

theorem bulkAddStep_success (add : CartAdd) (item : BulkItem) :
    (bulkAddStep add item).success = addSucceeds add item := by
  unfold bulkAddStep addSucceeds
  cases add item <;> rfl

theorem length_filter_bool_split {α : Type} (p : α → Bool) (l : List α) :
    (l.filter p).length + (l.filter (fun a => !p a)).length = l.length := by
  induction l with
  | nil => rfl
  | cons a l ih =>
    cases h : p a <;> simp [List.filter, h] <;> omega

/-- C2: every item of a bulk add is attempted independently: the result
list has one entry per input item, entry i is a function of item i
alone (so a failure on one item never prevents the others from being
attempted), added counts the items whose add succeeded, failed counts
the items whose add failed, added plus failed equals the number of
input items, and every entry is either a success without error or a
failure carrying an error message. -/
theorem bulk_add_to_cart_partial_failure (add : CartAdd) (items : List BulkItem) :
    (bulk_add_to_cart add items).length = items.length ∧
    (∀ i (h : i < (bulk_add_to_cart add items).length) (h2 : i < items.length),
      (bulk_add_to_cart add items).get ⟨i, h⟩ =
        bulkAddStep add (items.get ⟨i, h2⟩)) ∧
    addedCount (bulk_add_to_cart add items) =
      (items.filter (fun it => addSucceeds add it)).length ∧
    failedCount (bulk_add_to_cart add items) =
      (items.filter (fun it => !addSucceeds add it)).length ∧
    addedCount (bulk_add_to_cart add items) +
      failedCount (bulk_add_to_cart add items) = items.length ∧
    (∀ r ∈ bulk_add_to_cart add items,
      (r.success = true ∧ r.error = none) ∨
      (r.success = false ∧ r.error ≠ none)) := by
  rw [bulk_add_to_cart_eq_map]
  refine ⟨by simp, ?_, ?_, ?_, ?_, ?_⟩
  · intro i h h2
    simp [List.get_eq_getElem, List.getElem_map]
  · unfold addedCount
    rw [List.filter_map, List.length_map]
    congr 1
    apply List.filter_congr
    intro it _
    simp [Function.comp, bulkAddStep_success]
  · unfold failedCount
    rw [List.filter_map, List.length_map]
    congr 1
    apply List.filter_congr
    intro it _
    simp [Function.comp, bulkAddStep_success]
  · have h := length_filter_bool_split (fun r => r.success)
      (items.map (bulkAddStep add))
    unfold addedCount failedCount
    simpa using h
  · intro r hr
    rcases List.mem_map.mp hr with ⟨it, _, rfl⟩
    unfold bulkAddStep
    cases add it
    · right; simp
    · left; simp


/-- A collaborator used by the witness theorems: product p2 is out of
stock, every other add succeeds. -/
def sampleAdd : CartAdd := fun item =>
  if item.productId = "p2" then Except.error "out of stock"
  else Except.ok ()

/-- Three concrete items used by the witness theorems, of which the
second fails to add. -/
def sampleItems : List BulkItem :=
  [{ productId := "p1", count := 1 },
   { productId := "p2", count := 2 },
   { productId := "p3", count := 1 }]

/-- Witness for C2: one simulated collaborator failure among three
items yields added 2 and failed 1, with an entry for each item, and the
entry of the failing item is the failure entry of that item alone. -/
theorem bulk_add_to_cart_partial_failure_witness :
    addedCount (bulk_add_to_cart sampleAdd sampleItems) = 2 ∧
    failedCount (bulk_add_to_cart sampleAdd sampleItems) = 1 ∧
    (bulk_add_to_cart sampleAdd sampleItems).length = 3 ∧
    (bulk_add_to_cart sampleAdd sampleItems).get ⟨1, by decide⟩ =
      bulkAddStep sampleAdd (sampleItems.get ⟨1, by decide⟩) := by
  have h := bulk_add_to_cart_partial_failure sampleAdd sampleItems
  refine ⟨?_, ?_, ?_, ?_⟩
  · rw [h.2.2.1]; decide
  · rw [h.2.2.2.1]; decide
  · rw [h.1]; rfl
  · exact h.2.1 1 (by decide) (by decide)


/-- The toggleMatch callback of the review step of the RecipesPage
component (part_010): the previous matches are mapped, and only the
record at the clicked index is rebuilt, with selected cleared when it
was set and set to the first candidate of its matches list when it was
unset (matches[0] of an empty list is the absent value). -/
def toggleMatch (prev : List ProductMatch) (index : ℕ) : List ProductMatch :=
  prev.mapIdx (fun i m =>
    if i = index then
      { m with selected :=
          if m.selected.isSome then none else m.«matches».head? }
    else m)

/-- C10: toggling the selection at index i modifies only record i,
leaving every other record unchanged; record i keeps every field except
selected, and its new selected is none when it was set, or the first
candidate of its matches when it was unset; in particular the toggle
can never select a candidate other than the first. -/
theorem toggleMatch_only_touches_index (ms : List ProductMatch) (index : ℕ) :
    (toggleMatch ms index).length = ms.length ∧
    (∀ j (h : j < (toggleMatch ms index).length) (h2 : j < ms.length),
      j ≠ index → (toggleMatch ms index).get ⟨j, h⟩ = ms.get ⟨j, h2⟩) ∧
    (∀ (h2 : index < (toggleMatch ms index).length) (h : index < ms.length),
      ((toggleMatch ms index).get ⟨index, h2⟩).ingredient =
        (ms.get ⟨index, h⟩).ingredient ∧
      ((toggleMatch ms index).get ⟨index, h2⟩).«matches» =
        (ms.get ⟨index, h⟩).«matches» ∧
      ((toggleMatch ms index).get ⟨index, h2⟩).status =
        (ms.get ⟨index, h⟩).status ∧
      ((toggleMatch ms index).get ⟨index, h2⟩).best_confidence =
        (ms.get ⟨index, h⟩).best_confidence ∧
      ((toggleMatch ms index).get ⟨index, h2⟩).needs_review =
        (ms.get ⟨index, h⟩).needs_review ∧
      ((toggleMatch ms index).get ⟨index, h2⟩).selected =
        (if (ms.get ⟨index, h⟩).selected.isSome then none
         else (ms.get ⟨index, h⟩).«matches».head?) ∧
      (((toggleMatch ms index).get ⟨index, h2⟩).selected = none ∨
       ((toggleMatch ms index).get ⟨index, h2⟩).selected =
         (ms.get ⟨index, h⟩).«matches».head?)) := by
  refine ⟨by simp [toggleMatch], ?_, ?_⟩
  · intro j h h2 hne
    simp only [toggleMatch, List.get_eq_getElem, List.getElem_mapIdx,
      if_neg hne]
  · intro h2 h
    simp only [toggleMatch, List.get_eq_getElem, List.getElem_mapIdx,
      if_pos rfl]
    refine ⟨rfl, rfl, rfl, rfl, rfl, rfl, ?_⟩
    by_cases hs : (ms[index].selected).isSome
    · left; simp [hs]
    · right; simp [hs]

/-- Two concrete records used by the toggle witness: the first has a
selection, the second has none. -/
def sampleBatch : List ProductMatch :=
  [classify sampleIngredient [sampleOption],
   classify sampleIngredient []]

/-- Witness for C10: toggling index 0 of the sample batch clears its
selection, keeps its other fields, and leaves record 1 untouched. -/
theorem toggleMatch_only_touches_index_witness :
    (toggleMatch sampleBatch 0).length = sampleBatch.length ∧
    (toggleMatch sampleBatch 0).get ⟨1, by decide⟩ =
      sampleBatch.get ⟨1, by decide⟩ ∧
    ((toggleMatch sampleBatch 0).get ⟨0, by decide⟩).selected = none ∧
    ((toggleMatch sampleBatch 0).get ⟨0, by decide⟩).«matches» =
      (sampleBatch.get ⟨0, by decide⟩).«matches» := by
  have h := toggleMatch_only_touches_index sampleBatch 0
  refine ⟨h.1, h.2.1 1 (by decide) (by decide) (by decide), ?_, ?_⟩
  · rw [(h.2.2 (by decide) (by decide)).2.2.2.2.2.1]
    norm_num [sampleBatch, classify, sampleOption, sampleIngredient,
      autoSelectThreshold]
  · exact (h.2.2 (by decide) (by decide)).2.1

/-- The selectedMatches value of the RecipesPage component (part_010):
matches.filter(m => m.selected); a present option object is always
truthy in the source, so the filter keeps exactly the records whose
selected is non-null. -/
def selectedMatches (ms : List ProductMatch) : List ProductMatch :=
  ms.filter (fun m => m.selected.isSome)

/-- One add-to-cart request issued during commit. -/
structure CartRequest where
  productId : String
  quantity : ℕ
deriving Repr, DecidableEq

/-- Modelled from the spec: the backend handler of /recipes/add-to-cart
is not in the available sources. Per the spec, commit takes the records
with non-null selected (the selectedMatches list the frontend posts)
and issues one add-to-cart request per record, carrying the selected
product id and the suggested quantity derived from the descriptor. -/
def commitRequests (ms : List ProductMatch) : List CartRequest :=
  (selectedMatches ms).map (fun m =>
    { productId := (m.selected.map (fun p => p.id)).getD "",
      quantity := suggestedQuantity m.ingredient })

/-- C3: the commit step issues requests for exactly the records whose
selected field is non-null: the request list equals the one obtained by
keeping, for each record with a selected product, one request with that
product id, while records with no selection contribute nothing; its
length is the number of selected records. -/
theorem commitRequests_exactly_selected (ms : List ProductMatch) :
    commitRequests ms =
      ms.filterMap (fun m => m.selected.map (fun p =>
        ({ productId := p.id,
           quantity := suggestedQuantity m.ingredient } : CartRequest))) ∧
    (commitRequests ms).length = (selectedMatches ms).length := by
  constructor
  · unfold commitRequests selectedMatches
    induction ms with
    | nil => rfl
    | cons m rest ih =>
      cases h : m.selected with
      | none => simpa [List.filter_cons, List.filterMap_cons, h] using ih
      | some p => simpa [List.filter_cons, List.filterMap_cons, h] using ih
  · unfold commitRequests
    simp


/-- Modelled from the spec: the unit vocabulary of the ingredient
extractor (volume, weight and count units; the backend extractor is not
in the available sources). -/
def unitVocab : List String :=
  ["cup", "cups", "tbsp", "tsp", "teaspoon", "tablespoon", "g", "gram",
   "grams", "kg", "mg", "ml", "cl", "dl", "l", "liter", "litre", "el",
   "tl", "stuk", "stuks", "snufje", "teen", "tenen", "blik", "zakje",
   "pond", "ons"]

/-- Whether a character is horizontal or vertical whitespace other than
a line break. -/
def isSpaceChar (c : Char) : Bool :=
  c = ' ' || c = '\t' || c = '\r'

/-- The line separator of the raw ingredient text. -/
def newlineChar : Char := '\n'

/-- Splits a character list on a separator character; adjacent
separators yield empty pieces, like the splitOn of strings. -/
def splitOnChar (sep : Char) : List Char → List (List Char)
  | [] => [[]]
  | c :: rest =>
    if c = sep then [] :: splitOnChar sep rest
    else
      match splitOnChar sep rest with
      | [] => [[c]]
      | h :: t => (c :: h) :: t

/-- Removes leading and trailing whitespace characters. -/
def trimChars (cs : List Char) : List Char :=
  ((cs.dropWhile isSpaceChar).reverse.dropWhile isSpaceChar).reverse

/-- Value of a list of decimal digit characters. -/
def digitsToNat (cs : List Char) : ℕ :=
  cs.foldl (fun n c => 10 * n + (c.toNat - 48)) 0

/-- Parses a token of decimal digits; none when the token is empty or
holds a non-digit character. -/
def parseNatToken (t : List Char) : Option ℕ :=
  if t ≠ [] ∧ t.all (fun c => c.isDigit) then some (digitsToNat t)
  else none

/-- Modelled from the spec: a leading quantity token is a plain
numeral, a simple fraction written with a slash, or a unicode fraction
glyph; anything else is not a quantity. -/
def parseQuantityToken (t : List Char) : Option ℚ :=
  if t = ['½'] then some (1 / 2)
  else if t = ['¼'] then some (1 / 4)
  else if t = ['¾'] then some (3 / 4)
  else if t = ['⅓'] then some (1 / 3)
  else if t = ['⅔'] then some (2 / 3)
  else
    match splitOnChar '/' t with
    | [a] => (parseNatToken a).map (fun n => (n : ℚ))
    | [a, b] =>
      match parseNatToken a, parseNatToken b with
      | some x, some y => if y ≠ 0 then some ((x : ℚ) / (y : ℚ)) else none
      | _, _ => none
    | _ => none

/-- Drops every parenthetical aside, keeping only the characters at
parenthesis depth zero. -/
def stripParens : List Char → ℕ → List Char
  | [], _ => []
  | c :: rest, depth =>
    if c = '(' then stripParens rest (depth + 1)
    else if c = ')' then stripParens rest (depth - 1)
    else if depth = 0 then c :: stripParens rest depth
    else stripParens rest depth

/-- Synonym table collapsing near-duplicate vocabulary. -/
def synonymTable : List (String × String) :=
  [("scallion", "spring onion"), ("bosui", "lente-ui"),
   ("aubergine", "eggplant")]

/-- Singular, lower-case, synonym-mapped form of an ingredient name. -/
def normalizeName (name : List Char) : String :=
  let lower := name.map Char.toLower
  let sing := if lower.getLast? = some 's' ∧ 4 ≤ lower.length
    then lower.dropLast else lower
  match synonymTable.lookup (String.mk sing) with
  | some mapped => mapped
  | none => String.mk sing

/-- Joins name tokens back with single spaces. -/
def joinWithSpace : List (List Char) → List Char
  | [] => []
  | [t] => t
  | t :: ts => t ++ (' ' :: joinWithSpace ts)

/-- Builds a descriptor from the original line, the parsed quantity and
unit, and the remaining name tokens; an empty name yields no
descriptor. -/
def mkDescriptor (line : List Char) (q : Option ℚ) (u : Option String)
    (nameToks : List (List Char)) : Option ParsedIngredient :=
  match nameToks with
  | [] => none
  | t :: rest =>
    let nameChars := joinWithSpace (t :: rest)
    let norm := normalizeName nameChars
    some { original_text := String.mk line, quantity := q, unit := u,
           ingredient := String.mk nameChars, normalized := norm,
           search_term := norm }

/-- Modelled from the spec: the per-line ingredient parser of the
backend extractor is not in the available sources. Per the spec, a
blank line or a section header (pure noise with no plausible name) is
dropped, parenthetical asides are stripped, then an optional leading
quantity and an optional unit token from the vocabulary are split off
and the remainder becomes the name; a line with neither quantity nor
unit is still a valid descriptor, and a malformed line returns none
instead of raising. -/
def parseLine (cs : List Char) : Option ParsedIngredient :=
  if cs.all isSpaceChar then none
  else
    let cleaned := trimChars (stripParens cs 0)
    if cleaned = [] then none
    else if cleaned.getLast? = some ':' then none
    else
      let toks := (splitOnChar ' ' cleaned).filter (fun t => t ≠ [])
      match toks with
      | [] => none
      | t :: rest =>
        match parseQuantityToken t with
        | some q =>
          match rest with
          | [] => none
          | u :: rest2 =>
            let ulc := u.map Char.toLower
            if String.mk ulc ∈ unitVocab then
              mkDescriptor cs (some q) (some (String.mk ulc)) rest2
            else
              mkDescriptor cs (some q) none rest
        | none => mkDescriptor cs none none toks

/-- Modelled from the spec: extract splits the raw text into lines and
parses each line, silently dropping every line that yields no
descriptor. -/
def extract (rawText : String) : List ParsedIngredient :=
  (splitOnChar newlineChar rawText.toList).filterMap parseLine

theorem filterMap_length_le_filter {α β : Type} (f : α → Option β)
    (p : α → Bool) (h : ∀ a, p a = false → f a = none) (l : List α) :
    (l.filterMap f).length ≤ (l.filter p).length := by
  induction l with
  | nil => simp
  | cons a l ih =>
    cases hp : p a with
    | false =>
      rw [List.filterMap_cons, h a hp, List.filter_cons]
      simpa [hp] using ih
    | true =>
      rw [List.filterMap_cons, List.filter_cons]
      cases f a <;> simp [hp] <;> omega

/-- C8: extract is a total function of the raw text (it can never
raise), it returns at most one descriptor per non-blank input line, a
blank line yields no descriptor at all, and the output is exactly the
per-line parses of the input with the dropped lines removed. -/
theorem extract_never_raises_and_bounded (rawText : String) :
    (extract rawText).length ≤
      ((splitOnChar newlineChar rawText.toList).filter
        (fun l => ¬ l.all isSpaceChar)).length ∧
    (∀ line : List Char, line.all isSpaceChar = true →
      parseLine line = none) ∧
    extract rawText =
      (splitOnChar newlineChar rawText.toList).filterMap parseLine := by
  have hblank : ∀ line : List Char, line.all isSpaceChar = true →
      parseLine line = none := by
    intro line hl
    unfold parseLine
    rw [if_pos hl]
  refine ⟨?_, hblank, rfl⟩
  apply filterMap_length_le_filter
  intro line hline
  apply hblank
  simpa using hline

/-- Witness for C8: on a concrete four-line input with one blank line
and one section header, extract returns at most three descriptors, and
a line of spaces parses to nothing. -/
theorem extract_never_raises_and_bounded_witness :
    (extract "2 cups bloem\n\nFor the sauce:\nmelk").length ≤ 3 ∧
    parseLine [' ', ' '] = none := by
  have h := extract_never_raises_and_bounded "2 cups bloem\n\nFor the sauce:\nmelk"
  constructor
  · apply le_trans h.1
    decide
  · exact h.2.1 [' ', ' '] (by decide)


/-- A raw hit returned by the external catalog search collaborator. -/
structure RawHit where
  id : String
  name : String
  price : Option ℤ
  image_url : Option String
  unit_quantity : Option String
deriving Repr, DecidableEq

/-- Lower-cased word tokens of a catalog name or search term. -/
def nameTokens (s : String) : List (List Char) :=
  ((splitOnChar ' ' s.toList).filter (fun t => t ≠ [])).map
    (fun t => t.map Char.toLower)

/-- Number of query tokens that also occur in the hit name. -/
def overlapCount (q h : List (List Char)) : ℕ :=
  (q.filter (fun t => t ∈ h)).length

/-- Modelled from the spec: the scoring of the catalog matcher is not
in the available sources. The confidence of a hit is the token-overlap
ratio between the normalized search term and the tokenized hit name,
scaled by a penalty for length mismatch, so an identical-token match
scores 1 and a hit sharing no token scores 0. -/
def hitConfidence (term : String) (hit : RawHit) : ℚ :=
  let qt := nameTokens term
  let ht := nameTokens hit.name
  if qt.length = 0 ∨ ht.length = 0 then 0
  else
    ((overlapCount qt ht : ℚ) / (qt.length : ℚ)) *
      ((min qt.length ht.length : ℚ) / (max qt.length ht.length : ℚ))

/-- Adapter from the raw external shape to a candidate. -/
def toCandidate (term : String) (hit : RawHit) : ProductMatchOption :=
  { id := hit.id, name := hit.name, price := hit.price,
    image_url := hit.image_url, unit_quantity := hit.unit_quantity,
    confidence := hitConfidence term hit }

/-- Candidate ordering of the matcher: higher confidence first, and on
exactly equal confidence the shorter display name first. -/
def candidateLe (a b : ProductMatchOption) : Bool :=
  decide (b.confidence < a.confidence) ||
    (decide (a.confidence = b.confidence) &&
      decide (a.name.length ≤ b.name.length))

/-- Maximum number of candidates kept per descriptor. -/
def matchK : ℕ := 5

/-- Modelled from the spec: the candidate ranking of the catalog
matcher is not in the available sources. Hits are scored against the
search term, hits with no token overlap (confidence zero) are excluded,
the rest are sorted by descending confidence with ties broken by the
shorter display name, and at most matchK candidates are kept. -/
def rankCandidates (term : String) (hits : List RawHit) :
    List ProductMatchOption :=
  ((((hits.map (toCandidate term)).filter
    (fun c => 0 < c.confidence)).mergeSort candidateLe).take matchK)

theorem candidateLe_trans (a b c : ProductMatchOption)
    (hab : candidateLe a b = true) (hbc : candidateLe b c = true) :
    candidateLe a c = true := by
  simp only [candidateLe, Bool.or_eq_true, Bool.and_eq_true,
    decide_eq_true_eq] at hab hbc ⊢
  rcases hab with h1 | ⟨h1, h2⟩ <;> rcases hbc with h3 | ⟨h3, h4⟩
  · left; linarith
  · left; linarith
  · left; linarith
  · right; exact ⟨h1.trans h3, h2.trans h4⟩

theorem candidateLe_total (a b : ProductMatchOption) :
    (candidateLe a b || candidateLe b a) = true := by
  simp only [candidateLe, Bool.or_eq_true, Bool.and_eq_true,
    decide_eq_true_eq]
  rcases lt_trichotomy a.confidence b.confidence with h | h | h
  · right; left; exact h
  · rcases Nat.le_total a.name.length b.name.length with hl | hl
    · left; right; exact ⟨h, hl⟩
    · right; right; exact ⟨h.symm, hl⟩
  · left; left; exact h

/-- C6: the candidate list produced for one descriptor is ordered by
non-increasing confidence, and any two candidates with exactly equal
confidence appear with the shorter display name first. -/
theorem rankCandidates_sorted (term : String) (hits : List RawHit) :
    List.Pairwise (fun a b : ProductMatchOption =>
      b.confidence ≤ a.confidence ∧
      (a.confidence = b.confidence → a.name.length ≤ b.name.length))
      (rankCandidates term hits) := by
  unfold rankCandidates
  apply List.Pairwise.sublist (List.take_sublist _ _)
  have hs := @List.sorted_mergeSort ProductMatchOption candidateLe
    candidateLe_trans candidateLe_total
    ((hits.map (toCandidate term)).filter (fun c => 0 < c.confidence))
  apply hs.imp
  intro a b hab
  simp only [candidateLe, Bool.or_eq_true, Bool.and_eq_true,
    decide_eq_true_eq] at hab
  rcases hab with h | ⟨h1, h2⟩
  · exact ⟨le_of_lt h, fun he => absurd he (by intro he2; linarith)⟩
  · exact ⟨le_of_eq h1.symm, fun _ => h2⟩

/-- The outcome of one call to the external catalog search: a hit list
or a transient failure (error or timeout). -/
inductive SearchOutcome where
  | hits (hs : List RawHit)
  | failure
deriving Repr, DecidableEq

/-- Modelled from the spec: the per-descriptor matcher of the backend
is not in the available sources. It queries the external collaborator
with the normalized term and ranks the hits; a failed or timed out
search degrades to an empty candidate list for that one descriptor. -/
def matchDescriptor (search : String → SearchOutcome)
    (d : ParsedIngredient) : List ProductMatchOption :=
  match search d.normalized with
  | SearchOutcome.hits hs => rankCandidates d.normalized hs
  | SearchOutcome.failure => []

/-- Modelled from the spec: the resolve step of the orchestrator
classifies every extracted descriptor with its matched candidates,
preserving input order. -/
def resolve (search : String → SearchOutcome)
    (ds : List ParsedIngredient) : List ProductMatch :=
  ds.map (fun d => classify d (matchDescriptor search d))

/-- C4: when the external search fails or times out for one
descriptor, the record of that descriptor has an empty candidate list
and is classified not_found with nothing selected, while the resolve
call for the whole batch still succeeds, producing for every
descriptor (the other ones included) exactly the record of its own
classification. -/
theorem matcher_failure_degrades_single_record
    (search : String → SearchOutcome) (ds : List ParsedIngredient)
    (i : ℕ) (h : i < ds.length)
    (hf : search (ds.get ⟨i, h⟩).normalized = SearchOutcome.failure) :
    (resolve search ds).length = ds.length ∧
    (∀ h2 : i < (resolve search ds).length,
      ((resolve search ds).get ⟨i, h2⟩).«matches» = [] ∧
      ((resolve search ds).get ⟨i, h2⟩).status = MatchStatus.NotFound ∧
      ((resolve search ds).get ⟨i, h2⟩).selected = none ∧
      ((resolve search ds).get ⟨i, h2⟩).needs_review = true) ∧
    (∀ j (hj : j < ds.length) (hj2 : j < (resolve search ds).length),
      (resolve search ds).get ⟨j, hj2⟩ =
        classify (ds.get ⟨j, hj⟩)
          (matchDescriptor search (ds.get ⟨j, hj⟩))) := by
  refine ⟨by simp [resolve], ?_, ?_⟩
  · intro h2
    have hrec : (resolve search ds).get ⟨i, h2⟩ =
        classify (ds.get ⟨i, h⟩) (matchDescriptor search (ds.get ⟨i, h⟩)) := by
      simp [resolve, List.get_eq_getElem, List.getElem_map]
    have hm : matchDescriptor search (ds.get ⟨i, h⟩) = [] := by
      unfold matchDescriptor
      rw [hf]
    rw [hrec, hm]
    exact ⟨rfl, rfl, rfl, rfl⟩
  · intro j hj hj2
    simp [resolve, List.get_eq_getElem, List.getElem_map]

/-- A search collaborator used by the witness theorems: the term ei
times out, every other term returns one exact hit. -/
def sampleSearch : String → SearchOutcome := fun term =>
  if term = "ei" then SearchOutcome.failure
  else SearchOutcome.hits
    [{ id := "p9", name := term, price := some 100, image_url := none,
       unit_quantity := none }]

/-- A second concrete descriptor whose search succeeds. -/
def sampleIngredient2 : ParsedIngredient :=
  { original_text := "500g bloem", quantity := some 500,
    unit := some "g", ingredient := "bloem", normalized := "bloem",
    search_term := "bloem" }

/-- Witness for C4: with a batch of two descriptors of which the first
one times out, the failed record is not_found with no candidates and
the batch still has a record for both descriptors. -/
theorem matcher_failure_degrades_single_record_witness :
    (resolve sampleSearch [sampleIngredient, sampleIngredient2]).length = 2 ∧
    ((resolve sampleSearch [sampleIngredient, sampleIngredient2]).get
      ⟨0, by decide⟩).status = MatchStatus.NotFound ∧
    ((resolve sampleSearch [sampleIngredient, sampleIngredient2]).get
      ⟨0, by decide⟩).«matches» = [] ∧
    ((resolve sampleSearch [sampleIngredient, sampleIngredient2]).get
      ⟨1, by decide⟩) =
      classify sampleIngredient2
        (matchDescriptor sampleSearch sampleIngredient2) := by
  have h := matcher_failure_degrades_single_record sampleSearch
    [sampleIngredient, sampleIngredient2] 0 (by decide) (by decide)
  exact ⟨h.1, (h.2.1 (by decide)).2.1, (h.2.1 (by decide)).1,
    h.2.2 1 (by decide) (by decide)⟩


/-- A placeholder descriptor for the out-of-range case of recordAt;
never reached for indices inside the batch. -/
def emptyIngredient : ParsedIngredient :=
  { original_text := "", quantity := none, unit := none,
    ingredient := "", normalized := "", search_term := "" }

/-- The classified record of the descriptor at one index. -/
def recordAt (search : String → SearchOutcome)
    (ds : List ParsedIngredient) (i : ℕ) : ProductMatch :=
  match ds[i]? with
  | some d => classify d (matchDescriptor search d)
  | none => classify emptyIngredient []

/-- Modelled from the spec: the concurrent fan-out of the orchestrator
is not in the available sources. The matcher calls of one batch finish
in an arbitrary completion order; each finished call yields the pair of
its original index and its classified record, and the orchestrator
reassembles the batch by original index, not by completion order. -/
def resolveWithCompletionOrder (search : String → SearchOutcome)
    (ds : List ParsedIngredient) (order : List ℕ) : List ProductMatch :=
  let completed := order.filterMap (fun i =>
    (ds[i]?).map (fun d => (i, classify d (matchDescriptor search d))))
  (List.range ds.length).filterMap (fun i => completed.lookup i)

theorem filterMap_eq_map_of_some {α β : Type} (f : α → Option β)
    (g : α → β) (l : List α) (h : ∀ a ∈ l, f a = some (g a)) :
    l.filterMap f = l.map g := by
  induction l with
  | nil => rfl
  | cons a l ih =>
    rw [List.filterMap_cons, h a (List.mem_cons_self a l), List.map_cons]
    rw [ih (fun b hb => h b (List.mem_cons_of_mem a hb))]

theorem lookup_map_pair {β : Type} (g : ℕ → β) (l : List ℕ) (i : ℕ)
    (hi : i ∈ l) :
    (l.map (fun j => (j, g j))).lookup i = some (g i) := by
  induction l with
  | nil => cases hi
  | cons j l ih =>
    rw [List.map_cons, List.lookup_cons]
    by_cases hij : i = j
    · subst hij
      simp
    · have hmem : i ∈ l := by
        rcases List.mem_cons.mp hi with h | h
        · exact absurd h hij
        · exact h
      have hbeq : (i == j) = false := by
        simp [hij]
      rw [hbeq]
      simpa using ih hmem

/-- C5: for every completion order of the concurrent matcher calls
(any permutation of the batch indices), the reassembled batch equals
the in-order classification of the descriptors: it has exactly one
record per descriptor, in original input order, independent of which
call finished first. -/
theorem resolve_order_independent (search : String → SearchOutcome)
    (ds : List ParsedIngredient) (order : List ℕ)
    (hperm : order.Perm (List.range ds.length)) :
    resolveWithCompletionOrder search ds order = resolve search ds ∧
    (resolveWithCompletionOrder search ds order).length = ds.length := by
  have hmem : ∀ i, i ∈ order ↔ i < ds.length := by
    intro i
    rw [hperm.mem_iff, List.mem_range]
  have hcompleted : order.filterMap (fun i =>
      (ds[i]?).map (fun d => (i, classify d (matchDescriptor search d)))) =
      order.map (fun i => (i, recordAt search ds i)) := by
    apply filterMap_eq_map_of_some
    intro i hi
    have hlt : i < ds.length := (hmem i).mp hi
    have hget : ds[i]? = some ds[i] := List.getElem?_eq_getElem hlt
    rw [hget]
    unfold recordAt
    rw [hget]
    rfl
  have hmain : resolveWithCompletionOrder search ds order =
      (List.range ds.length).map (recordAt search ds) := by
    unfold resolveWithCompletionOrder
    rw [hcompleted]
    apply filterMap_eq_map_of_some
    intro i hi
    have hlt : i < ds.length := List.mem_range.mp hi
    exact lookup_map_pair (recordAt search ds) order i ((hmem i).mpr hlt)
  have hresolve : (List.range ds.length).map (recordAt search ds) =
      resolve search ds := by
    apply List.ext_getElem
    · simp [resolve]
    · intro i h1 h2
      have hi : i < ds.length := by simpa using h1
      rw [List.getElem_map, List.getElem_range]
      unfold recordAt resolve
      rw [List.getElem_map, List.getElem?_eq_getElem hi]
  rw [hmain, hresolve]
  exact ⟨rfl, by simp [resolve]⟩

/-- Witness for C5: with two descriptors whose matcher calls finish in
reversed order, the reassembled batch equals the in-order resolution
and has one record per descriptor. -/
theorem resolve_order_independent_witness :
    resolveWithCompletionOrder sampleSearch
      [sampleIngredient, sampleIngredient2] [1, 0] =
      resolve sampleSearch [sampleIngredient, sampleIngredient2] ∧
    (resolveWithCompletionOrder sampleSearch
      [sampleIngredient, sampleIngredient2] [1, 0]).length = 2 :=
  resolve_order_independent sampleSearch
    [sampleIngredient, sampleIngredient2] [1, 0] (by decide)


/-- The Step union type of the RecipesPage component (part_010): the
session is in the input, matching or review step. -/
inductive Step where
  | input
  | matching
  | review
deriving Repr, DecidableEq

/-- The user-visible events of one recipe session in the RecipesPage
component: a submit whose parse succeeds, the completion of product
matching, the commit button (add selected to cart) succeeding or
failing, and the start-over button. -/
inductive SessionEvent where
  | submitAccepted
  | matchCompleted
  | commitSucceeded
  | commitFailed
  | startOver
deriving Repr, DecidableEq

/-- The step transitions of the RecipesPage component (part_010): a
successful parse moves input to matching, the resolved match call
moves matching to review, the commit button is rendered only in the
review step and its success resets the form to input while its failure
keeps the review step, and the start-over button of the review step
resets to input. Every other combination cannot occur in the
component. -/
def stepTransition : Step → SessionEvent → Option Step
  | Step.input, SessionEvent.submitAccepted => some Step.matching
  | Step.matching, SessionEvent.matchCompleted => some Step.review
  | Step.review, SessionEvent.commitSucceeded => some Step.input
  | Step.review, SessionEvent.commitFailed => some Step.review
  | Step.review, SessionEvent.startOver => some Step.input
  | _, _ => none

/-- Runs a session from a step through a list of events; none when an
event occurs in a step where its control is not rendered. -/
def runSession (s : Step) : List SessionEvent → Option Step
  | [] => some s
  | e :: es =>
    match stepTransition s e with
    | some t => runSession t es
    | none => none

theorem runSession_append (s : Step) (xs ys : List SessionEvent) :
    runSession s (xs ++ ys) =
      (runSession s xs).bind (fun t => runSession t ys) := by
  induction xs generalizing s with
  | nil => rfl
  | cons e xs ih =>
    cases h : stepTransition s e with
    | none => simp [runSession, h]
    | some t => simp [runSession, h, ih t]

/-- C7: in every accepted session trace starting at the input step, a
commit event (success or failure of the cart addition) can only occur
while the session is in the review step; the review step is only ever
entered from the matching step or kept across a failed commit, and the
only step reachable directly from input is matching: no session
commits without passing input, matching and review in that order. -/
theorem commit_only_after_review (evs : List SessionEvent) (s : Step)
    (hrun : runSession Step.input evs = some s) :
    (∀ i (h : i < evs.length),
      (evs.get ⟨i, h⟩ = SessionEvent.commitSucceeded ∨
        evs.get ⟨i, h⟩ = SessionEvent.commitFailed) →
      runSession Step.input (evs.take i) = some Step.review) ∧
    (∀ t e t2, stepTransition t e = some t2 → t2 = Step.review →
      t = Step.matching ∨ t = Step.review) ∧
    (∀ e t2, stepTransition Step.input e = some t2 →
      t2 = Step.matching) := by
  refine ⟨?_, ?_, ?_⟩
  · intro i h hc
    have hsplit : evs = evs.take i ++ evs.drop i :=
      (List.take_append_drop i evs).symm
    rw [hsplit, runSession_append] at hrun
    rcases Option.bind_eq_some.mp hrun with ⟨t, ht, hrest⟩
    have hdrop : evs.drop i = evs.get ⟨i, h⟩ :: evs.drop (i + 1) := by
      rw [List.get_eq_getElem]
      exact (List.getElem_cons_drop evs i h).symm
    rw [hdrop] at hrest
    unfold runSession at hrest
    rw [ht]
    rcases hc with hc | hc <;> rw [hc] at hrest <;>
      cases t <;> simp [stepTransition] at hrest <;> rfl
  · intro t e t2 h1 h2
    subst h2
    cases t <;> cases e <;> simp [stepTransition] at h1 <;> simp
  · intro e t2 h1
    cases e <;> simp [stepTransition] at h1
    simp [h1.symm]

/-- Witness for C7: in the concrete accepted trace submit, match
completion, commit, the commit at position 2 happens with the session
in the review step. -/
theorem commit_only_after_review_witness :
    runSession Step.input
      ([SessionEvent.submitAccepted, SessionEvent.matchCompleted,
        SessionEvent.commitSucceeded].take 2) = some Step.review :=
  (commit_only_after_review
    [SessionEvent.submitAccepted, SessionEvent.matchCompleted,
      SessionEvent.commitSucceeded] Step.input (by decide)).1
    2 (by decide) (Or.inl (by decide))

end PicnicKobo
